/-
Verification of the natural-language specification of the Premier-League
dashboard frontend bundle (src/frontend/public/App.js) against a shallow
Lean embedding of its functions.

Conventions of the embedding:
* JavaScript strings are Lean `String`s; character-level operations work on
  `String.toList`.
* JavaScript numbers are `Int` (scores, indices) or `Rat` (values produced
  by `/`); `Math.round` is `⌊x + 1/2⌋`.
* JavaScript objects used as string-keyed dictionaries are association
  lists `List (String × α)` in insertion order (matching `Object.keys`
  enumeration order for string keys in these objects).
* `undefined`/`null` results are `Option.none`.
* In-place mutation is modelled by returning the new value of the mutated
  object.
-/
import Mathlib

namespace App

/-! ### JavaScript values, `safe_not_equal` (App.js lines 16–18)

`JSValue` models the JavaScript values a store can hold, at the granularity
`safe_not_equal` distinguishes: `NaN` is separate from other numbers (it is
the only value with `a != a`), objects and functions carry an identity so
that `!==` on them is identity comparison, and `typeof` can recognise them. -/

inductive JSValue where
  | nan : JSValue
  | num : Int → JSValue
  | str : String → JSValue
  | boolean : Bool → JSValue
  | nullV : JSValue
  | undef : JSValue
  | obj : Nat → JSValue
  | fn : Nat → JSValue
deriving DecidableEq, Repr

/-- `typeof a === 'object' && a` truthy, or `typeof a === 'function'`:
every object is truthy, `null` (for which `typeof` is also `'object'`)
is falsy and short-circuits the `&&`. -/
def jsIsObjOrFn : JSValue → Bool
  | .obj _ => true
  | .fn _ => true
  | _ => false

/-- `a != a`: true exactly for `NaN`. -/
def jsSelfNeq : JSValue → Bool
  | .nan => true
  | _ => false

/-- App.js line 16:
`a != a ? b == b : a !== b || ((a && typeof a === 'object') || typeof a === 'function')` -/
def safe_not_equal (a b : JSValue) : Bool :=
  if jsSelfNeq a then !(jsSelfNeq b) else (a != b) || jsIsObjOrFn a

/-! ### The writable store (App.js lines 147–187)

A store's observable state is its current value and the insertion-ordered
collection of subscriber identities (the `Set` of `[run, invalidate]`
pairs; each `subscribe` call allocates a fresh pair, so identities never
collide and the set grows by exactly one element per call).  `stop` is
truthy between the first subscription and the moment the subscriber count
returns to zero (with the default `start = noop`, `stop = noop || noop`
is a function, hence truthy).

Calls of subscriber callbacks are returned as an explicit list of
`(subscriber id, value)` events, in the order the code performs them: a
single non-reentrant `set` finds the queue empty, pushes every subscriber
and then runs the whole queue once. -/

structure Store where
  value : JSValue
  subscribers : List Nat
  stop : Bool
deriving Repr, DecidableEq

/-- App.js lines 150–167 (`set`), for a non-reentrant call with the default
`start = noop`: if `safe_not_equal(value, new_value)` the value is replaced
and, when `stop` is truthy, each current subscriber is invoked once with
the new value, in insertion order. -/
def Store.set (s : Store) (new_value : JSValue) : Store × List (Nat × JSValue) :=
  if safe_not_equal s.value new_value then
    ({ s with value := new_value },
     if s.stop then s.subscribers.map (fun id => (id, new_value)) else [])
  else (s, [])

/-- App.js lines 168–170: `update(fn) { set(fn(value)) }`. -/
def Store.update (s : Store) (f : JSValue → JSValue) : Store × List (Nat × JSValue) :=
  s.set (f s.value)

/-- App.js lines 171–185 (`subscribe`): the fresh subscriber `id` is added,
on the first subscription `stop` becomes truthy, and `run` is invoked
immediately with the current value. -/
def Store.subscribe (s : Store) (id : Nat) : Store × List (Nat × JSValue) :=
  ({ s with
      subscribers := s.subscribers ++ [id],
      stop := true },
   [(id, s.value)])

/-- The unsubscriber returned by `subscribe` (App.js lines 178–184):
deletes exactly that subscriber from the set; when the set becomes empty,
`stop()` is called and `stop` is reset to `null`. -/
def Store.unsubscribe (s : Store) (id : Nat) : Store :=
  let subs := s.subscribers.erase id
  { s with subscribers := subs, stop := if subs.isEmpty then false else s.stop }

/-- App.js line 147: `writable(value)` starts with no subscribers and
`stop` unset. -/
def writable (value : JSValue) : Store :=
  { value := value, subscribers := [], stop := false }

/-! ### `ordinal` (App.js lines 1095–1099) -/

/-- `[, "st", "nd", "rd"]`: index 0 is an elision (undefined). -/
def ordArray : List (Option String) := [none, some "st", some "nd", some "rd"]

/-- App.js lines 1095–1099: with `a = n % 100`, the result is
`ord[a > 20 ? a % 10 : a] || "th"`, out-of-range indexing giving
`undefined`, hence `"th"`. -/
def ordinal (n : Nat) : String :=
  (ordArray.getD (if n % 100 > 20 then n % 100 % 10 else n % 100) none).getD "th"

/-! ### `toInitials` (App.js lines 816–834) -/

/-- JavaScript `String.prototype.slice(0, n)`. -/
def jsSlice (s : String) (n : Nat) : String := String.mk (s.toList.take n)

/-- JavaScript `String.prototype.toUpperCase()` (on the ASCII team names
in play this is per-character upper-casing). -/
def jsToUpperCase (s : String) : String := String.mk (s.toList.map Char.toUpper)

/-- The `switch` of `toInitials` as a case chain. -/
def toInitials (team : String) : String :=
  if team = "Brighton and Hove Albion" then "BHA"
  else if team = "Manchester City" then "MCI"
  else if team = "Manchester United" then "MUN"
  else if team = "Aston Villa" then "AVL"
  else if team = "Sheffield United" then "SHU"
  else if team = "West Bromwich Albion" then "WBA"
  else if team = "West Ham United" then "WHU"
  else jsToUpperCase (jsSlice team 3)

/-! ### `tableSnippetRange` (App.js lines 1002–1020) -/

/-- JavaScript `Array.prototype.indexOf`: position of the first occurrence,
`-1` when absent. -/
def jsIndexOf : List String → String → Int
  | [], _ => -1
  | y :: ys, x =>
    if y = x then 0
    else if jsIndexOf ys x = -1 then -1 else jsIndexOf ys x + 1

/-- App.js lines 1002–1020: the window `[low, high)` around the team's
position, with the two sequential overflow adjustments
(`if (low < 0)` then `if (high > sortedTeams.length - 1)`). -/
def tableSnippetRange (sortedTeams : List String) (team : String) : Int × Int :=
  let len : Int := sortedTeams.length
  let teamStandingsIdx := jsIndexOf sortedTeams team
  let low := teamStandingsIdx - 3
  let high := teamStandingsIdx + 4
  let p := if low < 0 then (0, high - low) else (low, high)
  if p.2 > len - 1 then (p.1 - (p.2 - len), len) else p

/-! ### `escape` (App.js lines 50–69)

`ATTR_REGEX = /[&"]/g` and `CONTENT_REGEX = /[&<]/g` are single-character
classes; `pattern.test(str)` with `pattern.lastIndex = last` searches for
the first matching character at position ≥ `last` and leaves
`lastIndex = i + 1`.  The loop therefore advances over the suffix of the
string after each replacement; we carry that suffix (`str` from position
`last`) explicitly, together with the accumulated `escaped` prefix, and a
fuel bounded by the suffix length (each iteration drops at least one
character). -/

/-- Character class of `ATTR_REGEX` (`is_attr = true`) or `CONTENT_REGEX`. -/
def escapePattern (is_attr : Bool) (c : Char) : Bool :=
  if is_attr then c == '&' || c == '"' else c == '&' || c == '<'

/-- Index of the first character matching the class, as a global regex
`test` finds it. -/
def findSpecialIdx (special : Char → Bool) : List Char → Option Nat
  | [] => none
  | c :: cs => if special c then some 0 else (findSpecialIdx special cs).map (· + 1)

/-- App.js line 65: `ch === '&' ? '&amp;' : (ch === '"' ? '&quot;' : '&lt;')`. -/
def escapeReplacement (ch : Char) : String :=
  if ch == '&' then "&amp;" else if ch == '"' then "&quot;" else "&lt;"

/-- The `while (pattern.test(str))` loop of App.js lines 62–67, on the
remaining suffix:
`escaped += str.substring(last, i) + replacement; last = i + 1`. -/
def escapeLoop (special : Char → Bool) : Nat → String → List Char → String
  | 0, escaped, rest => escaped ++ String.mk rest
  | fuel + 1, escaped, rest =>
    match findSpecialIdx special rest with
    | some i =>
      escapeLoop special fuel
        (escaped ++ String.mk (rest.take i) ++ escapeReplacement (rest.getD i ' '))
        (rest.drop (i + 1))
    | none => escaped ++ String.mk rest

/-- App.js lines 56–69 (`escape`). -/
def escape (value : String) (is_attr : Bool) : String :=
  escapeLoop (escapePattern is_attr) value.toList.length "" value.toList

/-- Reference implementation from the claim: straightforward per-character
replacement — in content mode `&` ↦ `&amp;` and `<` ↦ `&lt;`, in attribute
mode `&` ↦ `&amp;` and `"` ↦ `&quot;`, all other characters unchanged and
in order. -/
def escapeSpecChar (is_attr : Bool) (c : Char) : String :=
  if is_attr then
    if c = '&' then "&amp;" else if c = '"' then "&quot;" else String.mk [c]
  else
    if c = '&' then "&amp;" else if c = '<' then "&lt;" else String.mk [c]

/-- The per-character reference implementation over a character list. -/
def escapeSpecList (is_attr : Bool) : List Char → String
  | [] => ""
  | c :: cs => escapeSpecChar is_attr c ++ escapeSpecList is_attr cs

/-- The per-character reference implementation over a whole string. -/
def escapeSpec (value : String) (is_attr : Bool) : String :=
  escapeSpecList is_attr value.toList

/-! ### The routing utility (App.js lines 340–546, adapted from reach/router)

`decodeURIComponent` is kept abstract: every definition takes a `decode`
function, and the theorems hold for all of them. -/

/-- A route, `{ path, default }` (the `value` component plays no role in
`pick`'s control flow and is omitted). -/
structure Route where
  path : String
  isDefault : Bool
deriving DecidableEq, Repr

def paramRe : String := ":(.+)"

/-- `paramRe = /^:(.+)/` applied with `exec`: the string must start with
`:` followed by at least one character that is not a newline (`.` does not
match `\n`); the capture group is the maximal run of non-newline
characters after the colon. -/
def paramCapture (s : String) : Option String :=
  match s.toList with
  | ':' :: c :: cs =>
    if c = '\n' then none else some (String.mk ((c :: cs).takeWhile (· ≠ '\n')))
  | _ => none

def SEGMENT_POINTS : Int := 4
def STATIC_POINTS : Int := 3
def DYNAMIC_POINTS : Int := 2
def SPLAT_PENALTY : Int := 1
def ROOT_POINTS : Int := 1

/-- App.js line 358: `segment === ""`. -/
def isRootSegment (segment : String) : Bool := segment == ""

/-- App.js line 367: `paramRe.test(segment)`. -/
def isDynamic (segment : String) : Bool := (paramCapture segment).isSome

/-- App.js line 376: `segment[0] === "*"`. -/
def isSplat (segment : String) : Bool :=
  match segment.toList with
  | '*' :: _ => true
  | _ => false

/-- App.js line 399 (`stripSlashes`): `/(^\/+|\/+$)/g` removes the leading
and the trailing run of slashes. -/
def stripSlashes (str : String) : String :=
  String.mk (((str.toList.dropWhile (· == '/')).reverse.dropWhile (· == '/')).reverse)

/-- JavaScript `String.prototype.split` with a one-character separator:
splits at every occurrence; `"".split(sep)` is `[""]`. -/
def jsSplit (sep : Char) : List Char → List String
  | [] => [""]
  | c :: cs =>
    let rest := jsSplit sep cs
    if c = sep then "" :: rest
    else
      match rest with
      | s :: tail => (String.mk [c] ++ s) :: tail
      | [] => [String.mk [c]]

/-- App.js line 385 (`segmentize`): strip outer slashes, split on `/`. -/
def segmentize (uri : String) : List String := jsSplit '/' (stripSlashes uri).toList

/-- The ranked form of a route, `{ route, score, index }`. -/
structure Ranked where
  route : Route
  score : Int
  index : Nat
deriving DecidableEq, Repr

/-- The reducer of `rankRoute` (App.js lines 412–426): every segment earns
`SEGMENT_POINTS` plus its kind's bonus; a splat takes the segment points
back and pays the penalty. -/
def rankSegmentStep (score : Int) (segment : String) : Int :=
  let score := score + SEGMENT_POINTS
  if isRootSegment segment then score + ROOT_POINTS
  else if isDynamic segment then score + DYNAMIC_POINTS
  else if isSplat segment then score - (SEGMENT_POINTS + SPLAT_PENALTY)
  else score + STATIC_POINTS

/-- App.js lines 409–429 (`rankRoute`). -/
def rankRoute (route : Route) (index : Nat) : Ranked :=
  { route, index,
    score :=
      if route.isDefault then 0
      else (segmentize route.path).foldl rankSegmentStep 0 }

/-- The sort comparator of App.js line 441,
`a.score < b.score ? 1 : a.score > b.score ? -1 : a.index - b.index`,
as the relation "`a` may precede `b`" (comparator value ≤ 0). -/
def rankedLE (a b : Ranked) : Bool :=
  b.score < a.score || (a.score == b.score && a.index ≤ b.index)

/-- `rankedLE` as a decidable relation, for sorting. -/
def rankedR (a b : Ranked) : Prop := rankedLE a b = true

instance : DecidableRel rankedR := fun a b => instDecidableEqBool (rankedLE a b) true

/-- App.js lines 436–445 (`rankRoutes`): score all routes, then sort.
On the distinct indices produced by `enum` the comparator is a total
antisymmetric order, so the sorted result is the same for every sorting
algorithm `Array.prototype.sort` may use. -/
def rankRoutes (routes : List Route) : List Ranked :=
  (routes.enum.map fun p => rankRoute p.2 p.1).insertionSort rankedR

/-- A returned match, `{ route, params, uri }`; `params` is the
insertion-ordered JavaScript object. -/
structure RMatch where
  route : Route
  params : List (String × String)
  uri : String
deriving DecidableEq, Repr

/-- JavaScript `params[key] = value`: overwrite in place if the key
exists, otherwise append. -/
def jsObjectSet (params : List (String × String)) (k v : String) : List (String × String) :=
  if params.any (fun p => p.1 == k) then
    params.map (fun p => if p.1 == k then (k, v) else p)
  else params ++ [(k, v)]

/-- The inner `for (; index < max; index++)` loop of `pick`
(App.js lines 496–533).  `fuel` counts the remaining iterations
(`max - index`); exhausted fuel is the normal loop exit (no miss).
Returns `none` when `missed` is set, otherwise the `params` object and the
value of `index` after the loop (where the loop broke, or `max`). -/
def matchLoop (decode : String → String) (routeSegments uriSegments : List String)
    (isRootUri : Bool) : Nat → Nat → List (String × String) →
    Option (List (String × String) × Nat)
  | 0, index, params => some (params, index)
  | fuel + 1, index, params =>
    let routeSegment := routeSegments[index]?
    let uriSegment := uriSegments[index]?
    -- the non-splat body of the loop, shared by defined and undefined
    -- `routeSegment` (`paramRe.exec(undefined)` is `null`, and
    -- `undefined !== uriSegment` holds for every defined `uriSegment`)
    let step : Option (List (String × String) × Nat) :=
      match uriSegment with
      | none => none
      | some us =>
        match routeSegment.bind paramCapture with
        | some name =>
          if !isRootUri then
            matchLoop decode routeSegments uriSegments isRootUri fuel (index + 1)
              (jsObjectSet params name (decode us))
          else if routeSegment = some us then
            matchLoop decode routeSegments uriSegments isRootUri fuel (index + 1) params
          else none
        | none =>
          if routeSegment = some us then
            matchLoop decode routeSegments uriSegments isRootUri fuel (index + 1) params
          else none
    match routeSegment with
    | some rs =>
      if isSplat rs then
        let splatName := if rs == "*" then "*" else String.mk (rs.toList.drop 1)
        let value := String.intercalate "/" ((uriSegments.drop index).map decode)
        some (jsObjectSet params splatName value, index)
      else step
    | none => step

/-- Attempt to match one non-default route against the segmented URI,
assembling the `{ route, params, uri }` object of App.js lines 535–540. -/
def matchRoute (decode : String → String) (uriSegments : List String) (isRootUri : Bool)
    (route : Route) : Option RMatch :=
  let routeSegments := segmentize route.path
  match matchLoop decode routeSegments uriSegments isRootUri
      (Nat.max uriSegments.length routeSegments.length) 0 [] with
  | some (params, index) =>
    some { route, params, uri := "/" ++ String.intercalate "/" (uriSegments.take index) }
  | none => none

/-- The outer `for` loop of `pick` (App.js lines 478–543): walk the ranked
routes, remembering the most recent default route, returning the first
match. -/
def pickLoop (decode : String → String) (uri : String) (uriSegments : List String)
    (isRootUri : Bool) : List Ranked → Option RMatch → Option RMatch
  | [], defaultMatch => defaultMatch
  | e :: rest, defaultMatch =>
    if e.route.isDefault then
      pickLoop decode uri uriSegments isRootUri rest
        (some { route := e.route, params := [], uri })
    else
      match matchRoute decode uriSegments isRootUri e.route with
      | some m => some m
      | none => pickLoop decode uri uriSegments isRootUri rest defaultMatch

/-- App.js lines 473–474: `const [uriPathname] = uri.split("?")` then
`segmentize(uriPathname)`. -/
def uriSegmentsOf (uri : String) : List String :=
  segmentize ((jsSplit '?' uri.toList).headD "")

/-- App.js line 475: `uriSegments[0] === ""`. -/
def isRootUriOf (uri : String) : Bool := (uriSegmentsOf uri).head? == some ""

/-- App.js lines 469–546 (`pick`): `match || default_ || null`. -/
def pick (decode : String → String) (routes : List Route) (uri : String) : Option RMatch :=
  pickLoop decode uri (uriSegmentsOf uri) (isRootUriOf uri) (rankRoutes routes) none

/-! ### Goals helpers (App.js lines 1172–1205)

Goal counts are JavaScript numbers; we model them as rationals.
`Math.round(x)` is `⌊x + 1/2⌋`. -/

structure Score where
  homeGoals : Rat
  awayGoals : Rat
deriving DecidableEq, Repr

/-- JavaScript `Math.round`. -/
def jsRound (x : Rat) : Int := ⌊x + 1 / 2⌋

/-- App.js lines 1172–1175. -/
def identicalScore (prediction actual : Score) : Bool :=
  ((jsRound prediction.homeGoals : Rat) == actual.homeGoals) &&
  ((jsRound prediction.awayGoals : Rat) == actual.awayGoals)

/-- App.js lines 1176–1183. -/
def sameResult (prediction actual : Score) : Bool :=
  (jsRound prediction.homeGoals > jsRound prediction.awayGoals &&
    jsRound actual.homeGoals > jsRound actual.awayGoals) ||
  (jsRound prediction.homeGoals == jsRound prediction.awayGoals &&
    jsRound actual.homeGoals == jsRound actual.awayGoals) ||
  (jsRound prediction.homeGoals < jsRound prediction.awayGoals &&
    jsRound actual.homeGoals < jsRound actual.awayGoals)

/-- App.js lines 1184–1186. -/
def isCleanSheet (h a : Rat) (atHome : Bool) : Bool :=
  (a == 0 && atHome) || (h == 0 && !atHome)

/-- App.js lines 1187–1194. -/
def goalsScored (h a : Rat) (atHome : Bool) : Rat := if atHome then h else a

/-- App.js lines 1195–1202. -/
def goalsConceded (h a : Rat) (atHome : Bool) : Rat := if atHome then a else h

/-- App.js lines 1203–1205. -/
def notScored (h a : Rat) (atHome : Bool) : Bool :=
  (h == 0 && atHome) || (a == 0 && !atHome)

/-! ### Season statistics (App.js lines 1250–1300, StatsValues component)

`data` is the fetched statistics blob, modelled with the parts these
functions read: `_id` (the current season), `standings` (its key list) and
`form` (team → season → matchday-keyed object).  A team absent from
`data.form` is `none`; a season missing under a present team is modelled
as enumerating no matchdays. -/

structure MatchdayData where
  score : Option Score
  atHome : Bool
deriving DecidableEq, Repr

structure StatsData where
  _id : Int
  standings : List String
  form : String → Option (Int → List (String × MatchdayData))

/-- The per-team mutable record `stats[team]` of `buildStats`. -/
structure TeamStats where
  cleanSheetRatio : Rat
  noGoalRatio : Rat
  xC : Rat
  xG : Rat
  played : Rat
deriving DecidableEq, Repr

/-- The body of the matchday loop of `countOccurances` (App.js lines
1255–1273): skip matchdays whose `score` is null, otherwise bump the
counters of `seasonStats[team]`. -/
def countStep (acc : TeamStats) (md : String × MatchdayData) : TeamStats :=
  match md.2.score with
  | some score =>
    let atHome := md.2.atHome
    let acc :=
      if isCleanSheet score.homeGoals score.awayGoals atHome then
        { acc with cleanSheetRatio := acc.cleanSheetRatio + 1 }
      else acc
    let acc :=
      if notScored score.homeGoals score.awayGoals atHome then
        { acc with noGoalRatio := acc.noGoalRatio + 1 }
      else acc
    { acc with
        xG := acc.xG + goalsScored score.homeGoals score.awayGoals atHome,
        xC := acc.xC + goalsConceded score.homeGoals score.awayGoals atHome,
        played := acc.played + 1 }
  | none => acc

/-- App.js lines 1250–1274 (`countOccurances`), acting on the record
`seasonStats[team]`. -/
def countOccurances (data : StatsData) (stats : TeamStats) (team : String)
    (season : Int) : TeamStats :=
  match data.form team with
  | none => stats
  | some seasons => (seasons season).foldl countStep stats

/-- The loop body of `buildStats` (App.js lines 1279–1297) for one team:
count over the current and the previous season, then divide when any
match was played. -/
def buildStatsFor (data : StatsData) (team : String) : TeamStats :=
  let s : TeamStats := ⟨0, 0, 0, 0, 0⟩
  let s := countOccurances data s team data._id
  let s := countOccurances data s team (data._id - 1)
  if s.played > 0 then
    { cleanSheetRatio := s.cleanSheetRatio / s.played,
      noGoalRatio := s.noGoalRatio / s.played,
      xC := s.xC / s.played,
      xG := s.xG / s.played,
      played := s.played }
  else s

/-- App.js lines 1276–1300 (`buildStats`): the `stats` object, keyed by
the teams of `data.standings`. -/
def buildStats (data : StatsData) : List (String × TeamStats) :=
  data.standings.map fun team => (team, buildStatsFor data team)

/-! ### The Dashboard page load (App.js lines 4786–4890)

`initDashboard` is an `async` function whose single `await`ed fetch (plus
`response.json()`) either yields the parsed blob or rejects; a rejection
aborts the rest of the function body (there is no `try`/`catch`).  We pass
the outcome in as `Option StatsData` and return, besides the new component
state, the ordered list of external effects the call performs.
`playedMatchdayDates` (chart x-axis construction from fixture dates) is
irrelevant to the claims and is kept abstract as the `playedDatesOf`
parameter; the theorems hold for every such function. -/

def jsToLowerCase (s : String) : String := String.mk (s.toList.map Char.toLower)

/-- First index at which `pat` occurs in the character list, if any. -/
def firstOcc (pat : List Char) : List Char → Option Nat
  | [] => if pat.isEmpty then some 0 else none
  | c :: cs => if pat.isPrefixOf (c :: cs) then some 0 else (firstOcc pat cs).map (· + 1)

/-- JavaScript `String.prototype.replace` with a string pattern: replaces
only the first occurrence. -/
def replaceFirst (s pat rep : String) : String :=
  match firstOcc pat.toList s.toList with
  | some i =>
    String.mk (s.toList.take i) ++ rep ++ String.mk (s.toList.drop (i + pat.toList.length))
  | none => s

/-- App.js lines 4786–4790 (`toTitleCase`). -/
def toTitleCase (str : String) : String :=
  replaceFirst
    (String.intercalate " "
      ((jsSplit ' ' (jsToLowerCase str).toList).map fun word =>
        jsToUpperCase (jsSlice word 1) ++ String.mk (word.toList.drop 1)))
    "And" "and"

/-- App.js lines 848–850 (`toHyphenatedName`). -/
def toHyphenatedName (team : String) : String :=
  String.mk ((jsToLowerCase team).toList.map fun c => if c = ' ' then '-' else c)

/-- App.js lines 868–876 (`currentMatchday`): last matchday key of the
current season whose `score` is non-null. -/
def currentMatchday (data : StatsData) (team : String) : Option String :=
  match data.form team with
  | some seasons => (((seasons data._id).reverse).find? fun md => md.2.score.isSome).map (·.1)
  | none => none

/-- The component state of `Dashboard` that `initDashboard` assigns
(App.js lines 4880–4886). -/
structure DashboardState where
  data : Option StatsData
  team : String
  title : String
  hyphenatedTeam : Option String
  teams : List String
  currentMatchday : Option String
  playedDates : List Int

/-- The external actions `initDashboard` can perform, in order. -/
inductive DashEffect where
  | fetchTeams
  | pushState (url : String)
  | redirectError
  | dispatchResize
deriving DecidableEq, Repr

/-- App.js lines 4824–4860 (`initDashboard`).  `fetchResult = none` models
the awaited fetch (or `response.json()`) rejecting: execution stops right
there, leaving every assignment after line 4836 unexecuted. -/
def initDashboard (playedDatesOf : StatsData → String → List Int)
    (fetchResult : Option StatsData) (st : DashboardState) :
    DashboardState × List DashEffect :=
  -- lines 4826–4833: set the formatted team name before fetching
  let st :=
    if st.hyphenatedTeam = some "overview" then
      { st with team := "Overview", title := "Dashboard | Overview",
                hyphenatedTeam := some "overview" }
    else
      match st.hyphenatedTeam with
      | some h =>
        let t := toTitleCase (String.mk (h.toList.map fun c => if c = '-' then ' ' else c))
        { st with team := t, title := "Dashboard | " ++ t }
      | none => st
  match fetchResult with
  | none => (st, [.fetchTeams])
  | some json =>
    let st := { st with teams := json.standings }
    let (st, effs) :=
      if st.hyphenatedTeam = none then
        -- lines 4839–4847: at the root, pick the current leader
        let t := st.teams.headD ""
        ({ st with team := t, title := "Dashboard | " ++ t,
                   hyphenatedTeam := some (toHyphenatedName t) },
         [DashEffect.pushState (toHyphenatedName t)])
      else if st.team ≠ "Overview" && !(st.teams.contains st.team) then
        (st, [DashEffect.redirectError])
      else (st, [])
    let st :=
      if st.team ≠ "Overview" then
        { st with currentMatchday := currentMatchday json st.team,
                  playedDates := playedDatesOf json st.team }
      else st
    ({ st with data := some json }, .fetchTeams :: effs ++ [.dispatchResize])

/-- The outermost conditional of the Dashboard markup (App.js lines
4941–4998): the loading spinner is rendered exactly when `data` is still
`undefined`. -/
def dashboardShowsSpinner (st : DashboardState) : Bool := st.data.isNone

/-! ### The Predictions page (App.js lines 5040–5097)

Dates occur only through `new Date(s)` used numerically; the date parser
is abstracted as `dateVal : String → Int` and the theorems hold for every
such function.  `accuracy` uses `Rat` division (the `total = 0` page would
produce `NaN` in JavaScript; no claim depends on that value). -/

structure PredEntry where
  home : String
  away : String
  prediction : Score
  actual : Option Score
  datetime : String
  colour : Option String
deriving DecidableEq, Repr

structure PredDay where
  _id : String
  predictions : List PredEntry
deriving DecidableEq, Repr

/-- The wrapper `{ predictions: json }` that `insertExtras` receives. -/
structure PredJson where
  predictions : List PredDay
  accuracy : Option (Rat × Rat)
deriving DecidableEq, Repr

/-- App.js lines 5040–5052 (`sortByDate`): sort the fetched array in
place, days by descending date, then each day's predictions by ascending
time; returns the new contents of the array. -/
def sortByDate (dateVal : String → Int) (predictions : List PredDay) : List PredDay :=
  (predictions.insertionSort fun a b => dateVal b._id ≤ dateVal a._id).map
    fun day =>
      { day with
          predictions :=
            day.predictions.insertionSort fun a b =>
              dateVal a.datetime ≤ dateVal b.datetime }

/-- One iteration of the inner loop of `insertExtras` (App.js lines
5062–5077): the updated prediction entry and its contribution to
`(scoreCorrect, resultCorrect, total)`. -/
def insertExtrasEntry (p : PredEntry) : PredEntry × Nat × Nat × Nat :=
  match p.actual with
  | some actual =>
    if identicalScore p.prediction actual then
      ({ p with colour := some "green" }, 1, 1, 1)
    else if sameResult p.prediction actual then
      ({ p with colour := some "yellow" }, 0, 1, 1)
    else
      ({ p with colour := some "red" }, 0, 0, 1)
  | none => (p, 0, 0, 0)

/-- App.js lines 5055–5085 (`insertExtras`): annotate every completed
prediction with a colour and attach the accuracy summary; returns the new
contents of its argument. -/
def insertExtras (json : PredJson) : PredJson :=
  let counts : Nat × Nat × Nat :=
    json.predictions.foldl
      (fun acc day =>
        day.predictions.foldl
          (fun acc p =>
            let c := (insertExtrasEntry p).2
            (acc.1 + c.1, acc.2.1 + c.2.1, acc.2.2 + c.2.2))
          acc)
      (0, 0, 0)
  { predictions :=
      json.predictions.map fun day =>
        { day with predictions := day.predictions.map fun p => (insertExtrasEntry p).1 },
    accuracy :=
      some ((counts.1 : Rat) / (counts.2.2 : Rat), (counts.2.1 : Rat) / (counts.2.2 : Rat)) }

/-! ## Theorems -/

/-- C10: for every non-negative integer `n`, `ordinal(n)` returns the
English ordinal suffix: `"st"`, `"nd"`, `"rd"` when `n` ends in digit 1, 2
or 3 and `n mod 100` is not 11, 12 or 13, and `"th"` in every other
case — in particular whenever `n mod 100` lies between 4 and 20. -/
theorem ordinal_spec (n : Nat) :
    (ordinal n =
      if n % 10 = 1 ∧ n % 100 ≠ 11 then "st"
      else if n % 10 = 2 ∧ n % 100 ≠ 12 then "nd"
      else if n % 10 = 3 ∧ n % 100 ≠ 13 then "rd"
      else "th") ∧
    (4 ≤ n % 100 → n % 100 ≤ 20 → ordinal n = "th") := by
  have hmod : n % 10 = n % 100 % 10 := (Nat.mod_mod_of_dvd n (by norm_num)).symm
  have h100 : n % 100 < 100 := Nat.mod_lt _ (by norm_num)
  have key : ∀ a, a < 100 →
      ((ordArray.getD (if a > 20 then a % 10 else a) none).getD "th" =
        if a % 10 = 1 ∧ a ≠ 11 then "st"
        else if a % 10 = 2 ∧ a ≠ 12 then "nd"
        else if a % 10 = 3 ∧ a ≠ 13 then "rd"
        else "th") := by decide
  have h1 : ordinal n =
      if n % 10 = 1 ∧ n % 100 ≠ 11 then "st"
      else if n % 10 = 2 ∧ n % 100 ≠ 12 then "nd"
      else if n % 10 = 3 ∧ n % 100 ≠ 13 then "rd"
      else "th" := by
    rw [ordinal, key (n % 100) h100, hmod]
  refine ⟨h1, fun h4 h20 => ?_⟩
  rw [h1]
  split_ifs with c1 c2 c3
  · omega
  · omega
  · omega
  · rfl

/-- Witness for `ordinal_spec` at `n = 42`. -/
theorem ordinal_spec_witness : ordinal 42 = "nd" := by
  have h := (ordinal_spec 42).1
  rw [h]; decide

/-- The seven team names special-cased by `toInitials`. -/
def specialTeamNames : List String :=
  ["Brighton and Hove Albion", "Manchester City", "Manchester United",
   "Aston Villa", "Sheffield United", "West Bromwich Albion", "West Ham United"]

/-- C4: each of the seven specially-cased team names maps to its listed
code, every other name maps to its first three characters upper-cased, and
every input of length at least 3 gives a result of exactly 3 characters. -/
theorem toInitials_spec :
    (toInitials "Brighton and Hove Albion" = "BHA" ∧
     toInitials "Manchester City" = "MCI" ∧
     toInitials "Manchester United" = "MUN" ∧
     toInitials "Aston Villa" = "AVL" ∧
     toInitials "Sheffield United" = "SHU" ∧
     toInitials "West Bromwich Albion" = "WBA" ∧
     toInitials "West Ham United" = "WHU") ∧
    (∀ team : String, team ∉ specialTeamNames →
      toInitials team = jsToUpperCase (jsSlice team 3)) ∧
    (∀ team : String, 3 ≤ team.length → (toInitials team).length = 3) := by
  have hgen : ∀ team : String, team ∉ specialTeamNames →
      toInitials team = jsToUpperCase (jsSlice team 3) := by
    intro team h
    simp only [specialTeamNames, List.mem_cons, List.not_mem_nil, or_false, not_or] at h
    obtain ⟨h1, h2, h3, h4, h5, h6, h7⟩ := h
    simp [toInitials, h1, h2, h3, h4, h5, h6, h7]
  refine ⟨by refine ⟨?_, ?_, ?_, ?_, ?_, ?_, ?_⟩ <;> decide, hgen, ?_⟩
  intro team hlen
  by_cases hmem : team ∈ specialTeamNames
  · simp only [specialTeamNames, List.mem_cons, List.not_mem_nil, or_false] at hmem
    rcases hmem with h | h | h | h | h | h | h <;> subst h <;> decide
  · rw [hgen team hmem]
    show ((team.toList.take 3).map Char.toUpper).length = 3
    rw [List.length_map, List.length_take]
    have : team.toList.length = team.length := rfl
    omega

/-- Witness for `toInitials_spec` at `"Liverpool"`. -/
theorem toInitials_spec_witness :
    toInitials "Liverpool" = jsToUpperCase (jsSlice "Liverpool" 3) ∧
    (toInitials "Liverpool").length = 3 := by
  exact ⟨toInitials_spec.2.1 "Liverpool" (by decide),
         toInitials_spec.2.2 "Liverpool" (by decide)⟩

/-- `jsIndexOf` of a member is its position: in range `[0, length)`. -/
theorem jsIndexOf_mem_bounds {l : List String} {x : String} (h : x ∈ l) :
    0 ≤ jsIndexOf l x ∧ jsIndexOf l x < (l.length : Int) := by
  induction l with
  | nil => cases h
  | cons y ys ih =>
    by_cases hy : y = x
    · simp only [jsIndexOf, if_pos hy, List.length_cons]
      refine ⟨le_refl 0, ?_⟩
      push_cast
      omega
    · have hx : x ∈ ys := by
        cases h with
        | head => exact absurd rfl hy
        | tail _ h => exact h
      obtain ⟨h0, hlt⟩ := ih hx
      simp only [jsIndexOf, if_neg hy]
      split_ifs with hneg
      · omega
      · simp only [List.length_cons]
        push_cast
        omega

/-- C3: for a table of at least 7 teams containing `team`,
`tableSnippetRange` returns a window `[low, high)` of width 7 inside the
table that contains the team's index, and the window is exactly centered
(`low = idx - 3`, `high = idx + 4`) when the index is at least 3 positions
from the start and at least 4 from the end. -/
theorem tableSnippetRange_spec (sortedTeams : List String) (team : String)
    (hlen : 7 ≤ sortedTeams.length) (hmem : team ∈ sortedTeams) :
    ∃ low high, tableSnippetRange sortedTeams team = (low, high) ∧
      0 ≤ low ∧ high ≤ (sortedTeams.length : Int) ∧ high - low = 7 ∧
      low ≤ jsIndexOf sortedTeams team ∧ jsIndexOf sortedTeams team < high ∧
      (3 ≤ jsIndexOf sortedTeams team →
        jsIndexOf sortedTeams team + 4 ≤ (sortedTeams.length : Int) - 1 →
        low = jsIndexOf sortedTeams team - 3 ∧
        high = jsIndexOf sortedTeams team + 4) := by
  obtain ⟨h0, hlt⟩ := jsIndexOf_mem_bounds hmem
  have hlen' : (7 : Int) ≤ (sortedTeams.length : Int) := by exact_mod_cast hlen
  simp only [tableSnippetRange]
  split_ifs with hA hB hB <;>
    refine ⟨_, _, rfl, by omega, by omega, by omega, by omega, by omega, by omega⟩

/-- Witness for `tableSnippetRange_spec` on an 8-team table. -/
theorem tableSnippetRange_spec_witness :
    ∃ low high,
      tableSnippetRange ["a", "b", "c", "d", "e", "f", "g", "h"] "e" = (low, high) ∧
      0 ≤ low ∧ high ≤ (8 : Int) ∧ high - low = 7 ∧
      low ≤ jsIndexOf ["a", "b", "c", "d", "e", "f", "g", "h"] "e" ∧
      jsIndexOf ["a", "b", "c", "d", "e", "f", "g", "h"] "e" < high ∧
      (3 ≤ jsIndexOf ["a", "b", "c", "d", "e", "f", "g", "h"] "e" →
        jsIndexOf ["a", "b", "c", "d", "e", "f", "g", "h"] "e" + 4 ≤ (8 : Int) - 1 →
        low = jsIndexOf ["a", "b", "c", "d", "e", "f", "g", "h"] "e" - 3 ∧
        high = jsIndexOf ["a", "b", "c", "d", "e", "f", "g", "h"] "e" + 4) := by
  have h := tableSnippetRange_spec ["a", "b", "c", "d", "e", "f", "g", "h"] "e"
    (by decide) (by decide)
  simpa using h

/-! ### Store theorems (C2, C9) -/

/-- `jsSelfNeq a` holds exactly for `NaN`. -/
theorem jsSelfNeq_iff {a : JSValue} : jsSelfNeq a = true ↔ a = .nan := by
  cases a <;> simp [jsSelfNeq]

/-- Distinct values always satisfy `safe_not_equal`. -/
theorem safe_not_equal_of_ne {a b : JSValue} (h : a ≠ b) :
    safe_not_equal a b = true := by
  rw [safe_not_equal]
  split_ifs with hn
  · have ha : a = .nan := jsSelfNeq_iff.mp hn
    subst ha
    cases b <;> simp_all [jsSelfNeq]
  · simp [bne_iff_ne, h]

/-- If `safe_not_equal` fails, the two values are equal. -/
theorem eq_of_safe_not_equal_false {a b : JSValue} (h : safe_not_equal a b = false) :
    a = b := by
  rw [safe_not_equal] at h
  split_ifs at h with hn
  · have hb : jsSelfNeq b = true := by simpa using h
    rw [jsSelfNeq_iff.mp hn, jsSelfNeq_iff.mp hb]
  · simp only [Bool.or_eq_false_iff, bne_eq_false_iff_eq] at h
    exact h.1

/-- Object and function values always satisfy `safe_not_equal`, whatever
the old value is. -/
theorem safe_not_equal_objOrFn {a b : JSValue} (h : jsIsObjOrFn b = true) :
    safe_not_equal a b = true := by
  by_cases hab : a = b
  · subst hab
    rw [safe_not_equal]
    split_ifs with hn
    · rw [jsSelfNeq_iff.mp hn] at h
      cases h
    · simp [h]
  · exact safe_not_equal_of_ne hab

/-- After `set(w)` the stored value is always `w` (when `safe_not_equal`
fails the old value was already equal to `w`). -/
theorem Store.set_value (s : Store) (w : JSValue) : (s.set w).1.value = w := by
  by_cases h : safe_not_equal s.value w = true
  · rw [Store.set, if_pos h]
  · rw [Store.set, if_neg h]
    exact eq_of_safe_not_equal_false (by simpa using h)

/-- On a duplicate-free subscriber list, the notification list contains
exactly one call to each subscriber. -/
theorem countP_map_pair_eq_one {l : List Nat} (hnodup : l.Nodup) {i : Nat}
    (hi : i ∈ l) (w : JSValue) :
    ((l.map fun j => (j, w)).countP fun c => c.1 == i) = 1 := by
  induction l with
  | nil => cases hi
  | cons a t ih =>
    obtain ⟨ha, ht⟩ := List.nodup_cons.mp hnodup
    rw [List.map_cons, List.countP_cons]
    by_cases hai : a = i
    · subst hai
      have hzero : ((t.map fun j => (j, w)).countP fun c => c.1 == a) = 0 := by
        rw [List.countP_eq_zero]
        intro c hc
        obtain ⟨j, hj, rfl⟩ := List.mem_map.mp hc
        simp only [beq_iff_eq]
        exact fun hja => ha (hja ▸ hj)
      simp [hzero]
    · have hit : i ∈ t := by
        cases hi with
        | head => exact absurd rfl hai
        | tail _ h => exact h
      have : ((a, w).1 == i) = false := by simpa using hai
      simp [this, ih ht hit]

/-- C2: for a store built from `writable` (so with `stop` truthy exactly
while subscribers exist, and pairwise-distinct subscriber identities):
`subscribe(run)` immediately invokes `run` once with the current value and
appends the subscriber; the returned unsubscriber removes exactly that
subscriber; `set(w)` replaces the value with `w` and, whenever `w` differs
from the current value, invokes every currently registered subscriber
exactly once with `w`; and `update(fn)` equals `set(fn(currentValue))`. -/
theorem writable_store_spec (s : Store) (w : JSValue) (f : JSValue → JSValue)
    (id : Nat) (hstop : s.stop = !s.subscribers.isEmpty)
    (hnodup : s.subscribers.Nodup) :
    ((s.subscribe id).2 = [(id, s.value)] ∧
     (s.subscribe id).1.subscribers = s.subscribers ++ [id] ∧
     (s.subscribe id).1.value = s.value) ∧
    (id ∉ s.subscribers →
      ((s.subscribe id).1.unsubscribe id).subscribers = s.subscribers) ∧
    ((s.set w).1.value = w ∧
     (w ≠ s.value → (s.set w).2 = s.subscribers.map fun i => (i, w)) ∧
     (w ≠ s.value → ∀ i ∈ s.subscribers,
        ((s.set w).2.countP fun c => c.1 == i) = 1)) ∧
    s.update f = s.set (f s.value) := by
  have hset : w ≠ s.value → (s.set w).2 = s.subscribers.map fun i => (i, w) := by
    intro hne
    rw [Store.set, if_pos (safe_not_equal_of_ne (Ne.symm hne))]
    cases hsubs : s.subscribers with
    | nil => simp [hsubs ▸ hstop, hsubs]
    | cons a l => simp [hsubs ▸ hstop, hsubs]
  refine ⟨⟨rfl, rfl, rfl⟩, ?_, ⟨Store.set_value s w, hset, ?_⟩, rfl⟩
  · intro hid
    show ((s.subscribers ++ [id]).erase id) = s.subscribers
    rw [List.erase_append_right _ hid]
    simp
  · intro hne i hi
    rw [hset hne]
    exact countP_map_pair_eq_one hnodup hi w

/-- Witness for `writable_store_spec`: a store holding 0 with one
subscriber; setting 1 notifies that subscriber once. -/
theorem writable_store_spec_witness :
    (({ value := .num 0, subscribers := [5], stop := true } : Store).set (.num 1)).2 =
      [(5, JSValue.num 1)] := by
  have h := writable_store_spec { value := .num 0, subscribers := [5], stop := true }
    (.num 1) id 5 (by decide) (by decide)
  exact h.2.2.1.2.1 (by decide)

/-- Values of the primitive types named by the claim: number (other than
`NaN`), string, boolean. -/
def jsIsPrimitive : JSValue → Bool
  | .num _ => true
  | .str _ => true
  | .boolean _ => true
  | _ => false

/-- C9: a writable store notifies exactly when `safe_not_equal` holds
between old and new value: the subscriber calls of `set(w)` are the full
subscriber list iff `safe_not_equal` holds and empty otherwise; setting a
store to a primitive (number/string/boolean, not `NaN`) equal to its
current value notifies nobody, while setting it to any object or function
value — including the identical object it already holds — notifies every
subscriber. -/
theorem store_notifies_iff_safe_not_equal (s : Store) (w : JSValue)
    (hstop : s.stop = !s.subscribers.isEmpty) :
    ((s.set w).2 =
      if safe_not_equal s.value w then s.subscribers.map (fun i => (i, w)) else []) ∧
    (jsIsPrimitive w = true → w = s.value → (s.set w).2 = []) ∧
    (jsIsObjOrFn w = true → (s.set w).2 = s.subscribers.map fun i => (i, w)) := by
  have hmain : (s.set w).2 =
      if safe_not_equal s.value w then s.subscribers.map (fun i => (i, w)) else [] := by
    by_cases h : safe_not_equal s.value w = true
    · rw [Store.set, if_pos h, if_pos h]
      have hs := hstop
      cases hsubs : s.subscribers with
      | nil =>
        rw [hsubs] at hs
        simp only [List.isEmpty_nil, Bool.not_true] at hs
        simp [hs, hsubs]
      | cons a l =>
        rw [hsubs] at hs
        simp only [List.isEmpty_cons, Bool.not_false] at hs
        simp [hs, hsubs]
    · rw [Store.set, if_neg h, if_neg h]
  refine ⟨hmain, ?_, ?_⟩
  · intro hprim heq
    have hf : safe_not_equal s.value w = false := by
      rw [← heq]
      cases w <;> simp_all [safe_not_equal, jsSelfNeq, jsIsObjOrFn, jsIsPrimitive]
    rw [hmain]
    simp [hf]
  · intro hobj
    rw [hmain, if_pos (safe_not_equal_objOrFn hobj)]

/-- Witness for `store_notifies_iff_safe_not_equal`: re-setting the same
primitive notifies nobody, re-setting the identical object notifies. -/
theorem store_notifies_witness :
    (({ value := .num 7, subscribers := [1], stop := true } : Store).set (.num 7)).2 = [] ∧
    (({ value := .obj 3, subscribers := [1], stop := true } : Store).set (.obj 3)).2 =
      [(1, JSValue.obj 3)] := by
  refine ⟨?_, ?_⟩
  · exact (store_notifies_iff_safe_not_equal
      { value := .num 7, subscribers := [1], stop := true } (.num 7)
      (by decide)).2.1 (by decide) (by decide)
  · exact (store_notifies_iff_safe_not_equal
      { value := .obj 3, subscribers := [1], stop := true } (.obj 3)
      (by decide)).2.2 (by decide)

/-! ### Escape theorems (C8) -/

theorem str_append_assoc (a b c : String) : a ++ b ++ c = a ++ (b ++ c) := by
  cases a with | _ xs =>
  cases b with | _ ys =>
  cases c with | _ zs =>
  show String.mk (xs ++ ys ++ zs) = String.mk (xs ++ (ys ++ zs))
  rw [List.append_assoc]

theorem str_mk_append (xs ys : List Char) :
    String.mk xs ++ String.mk ys = String.mk (xs ++ ys) := rfl

/-- `escapeSpecChar` replaces exactly the characters of the mode's class,
with the source's shared replacement expression. -/
theorem escapeSpecChar_eq (b : Bool) (c : Char) :
    escapeSpecChar b c =
      if escapePattern b c then escapeReplacement c else String.mk [c] := by
  cases b <;>
    by_cases h1 : c = '&' <;> by_cases h2 : c = '"' <;> by_cases h3 : c = '<' <;>
    simp_all [escapeSpecChar, escapePattern, escapeReplacement]

theorem escapeSpecList_append (b : Bool) (l₁ l₂ : List Char) :
    escapeSpecList b (l₁ ++ l₂) = escapeSpecList b l₁ ++ escapeSpecList b l₂ := by
  induction l₁ with
  | nil =>
    show escapeSpecList b l₂ = String.mk ([] ++ (escapeSpecList b l₂).data)
    rfl
  | cons c cs ih =>
    show escapeSpecChar b c ++ escapeSpecList b (cs ++ l₂) = _
    rw [ih, escapeSpecList, str_append_assoc]

/-- On a stretch without special characters the reference implementation
is the identity. -/
theorem escapeSpecList_of_clean (b : Bool) (l : List Char)
    (h : ∀ c ∈ l, escapePattern b c = false) : escapeSpecList b l = String.mk l := by
  induction l with
  | nil => rfl
  | cons c cs ih =>
    rw [escapeSpecList, escapeSpecChar_eq, if_neg (by simp [h c (by simp)]),
      ih fun x hx => h x (List.mem_cons_of_mem _ hx), str_mk_append]
    rfl

theorem findSpecialIdx_none_clean {p : Char → Bool} {l : List Char}
    (h : findSpecialIdx p l = none) : ∀ c ∈ l, p c = false := by
  induction l with
  | nil => intro c hc; cases hc
  | cons a t ih =>
    rw [findSpecialIdx] at h
    split_ifs at h with ha
    intro c hc
    cases hc with
    | head => simpa using ha
    | tail _ hct =>
      cases ht : findSpecialIdx p t with
      | none => exact ih ht c hct
      | some j => rw [ht] at h; cases h

theorem findSpecialIdx_some_split {p : Char → Bool} {l : List Char} {i : Nat}
    (h : findSpecialIdx p l = some i) :
    i < l.length ∧ (∀ c ∈ l.take i, p c = false) ∧ p (l.getD i ' ') = true := by
  induction l generalizing i with
  | nil => cases h
  | cons a t ih =>
    rw [findSpecialIdx] at h
    split_ifs at h with ha
    · cases h
      exact ⟨by simp, by intro c hc; simp at hc, by simpa using ha⟩
    · cases ht : findSpecialIdx p t with
      | none => rw [ht] at h; cases h
      | some j =>
        rw [ht] at h
        simp only [Option.map] at h
        cases h
        obtain ⟨hlen, htake, hj⟩ := ih ht
        refine ⟨by simpa using hlen, ?_, by simpa using hj⟩
        intro c hc
        rw [List.take_succ_cons] at hc
        cases hc with
        | head => simpa using ha
        | tail _ hct => exact htake c hct

/-- The optimized scanning loop agrees with the per-character reference on
every suffix, provided the fuel covers the suffix. -/
theorem escapeLoop_eq_spec (b : Bool) :
    ∀ (fuel : Nat) (rest : List Char) (acc : String), rest.length ≤ fuel →
      escapeLoop (escapePattern b) fuel acc rest = acc ++ escapeSpecList b rest := by
  intro fuel
  induction fuel with
  | zero =>
    intro rest acc hlen
    rw [Nat.le_zero, List.length_eq_zero] at hlen
    subst hlen
    show acc ++ String.mk [] = acc ++ escapeSpecList b []
    rfl
  | succ n ih =>
    intro rest acc hlen
    cases hf : findSpecialIdx (escapePattern b) rest with
    | none =>
      simp only [escapeLoop, hf]
      rw [escapeSpecList_of_clean b rest (findSpecialIdx_none_clean hf)]
    | some i =>
      obtain ⟨hil, htake, hpi⟩ := findSpecialIdx_some_split hf
      simp only [escapeLoop, hf]
      rw [ih (rest.drop (i + 1)) _ (by simp; omega)]
      have hsplit : rest = rest.take i ++ rest.getD i ' ' :: rest.drop (i + 1) := by
        conv_lhs => rw [← List.take_append_drop i rest]
        congr 1
        rw [List.drop_eq_getElem_cons hil]
        congr 1
        simp [List.getD_eq_getElem?_getD, List.getElem?_eq_getElem hil]
      conv_rhs => rw [hsplit]
      rw [escapeSpecList_append, escapeSpecList,
        escapeSpecList_of_clean b _ htake, escapeSpecChar_eq, if_pos hpi,
        ← str_append_assoc, ← str_append_assoc]

/-- C8: `escape` equals the straightforward per-character reference
implementation: in content mode every `&` becomes `&amp;` and every `<`
becomes `&lt;`; in attribute mode every `&` becomes `&amp;` and every `"`
becomes `&quot;`; all other characters are unchanged and in order. -/
theorem escape_eq_spec (value : String) (is_attr : Bool) :
    escape value is_attr = escapeSpec value is_attr := by
  rw [escape, escapeSpec, escapeLoop_eq_spec is_attr value.toList.length _ "" (le_refl _)]
  cases hs : escapeSpecList is_attr value.toList with | _ l =>
  show String.mk ([] ++ l) = String.mk l
  rw [List.nil_append]

/-! ### Season statistics theorems (C5) -/

/-- A matchday that was played: its `score` is non-null. -/
def isPlayed (md : MatchdayData) : Bool := md.score.isSome

/-- The claim's clean-sheet condition: the team conceded zero goals — away
goals zero when at home, home goals zero when away. -/
def concededZero (md : MatchdayData) : Bool :=
  match md.score with
  | some sc => if md.atHome then sc.awayGoals == 0 else sc.homeGoals == 0
  | none => false

/-- All matchday records of the team over seasons `_id` and `_id - 1`. -/
def teamMatchdays (data : StatsData) (team : String) : List MatchdayData :=
  match data.form team with
  | some seasons =>
    ((seasons data._id).map (·.2)) ++ ((seasons (data._id - 1)).map (·.2))
  | none => []

theorem countStep_clean (acc : TeamStats) (md : String × MatchdayData) :
    (countStep acc md).cleanSheetRatio =
      acc.cleanSheetRatio + (if isPlayed md.2 && concededZero md.2 then 1 else 0) ∧
    (countStep acc md).played =
      acc.played + (if isPlayed md.2 then 1 else 0) := by
  obtain ⟨k, m⟩ := md
  cases hs : m.score with
  | none => simp [countStep, isPlayed, concededZero, hs]
  | some sc =>
    have hcz : concededZero m = isCleanSheet sc.homeGoals sc.awayGoals m.atHome := by
      cases hah : m.atHome <;> simp [concededZero, isCleanSheet, hs, hah]
    constructor
    · simp only [countStep, hs, isPlayed, Option.isSome_some, Bool.true_and, hcz]
      split_ifs <;> simp_all
    · simp only [countStep, hs, isPlayed, Option.isSome_some, if_pos]
      split_ifs <;> simp_all

theorem foldl_countStep (l : List (String × MatchdayData)) (stats : TeamStats) :
    (l.foldl countStep stats).cleanSheetRatio =
      stats.cleanSheetRatio +
        (((l.map (·.2)).filter fun md => isPlayed md && concededZero md).length : Rat) ∧
    (l.foldl countStep stats).played =
      stats.played + (((l.map (·.2)).filter isPlayed).length : Rat) := by
  induction l generalizing stats with
  | nil => simp
  | cons p t ih =>
    rw [List.foldl_cons]
    obtain ⟨ih1, ih2⟩ := ih (countStep stats p)
    obtain ⟨h1, h2⟩ := countStep_clean stats p
    constructor
    · rw [ih1, h1, List.map_cons, List.filter_cons]
      by_cases hb : (isPlayed p.2 && concededZero p.2) = true
      · rw [if_pos hb, if_pos hb, List.length_cons]
        push_cast
        ring
      · rw [if_neg hb, if_neg hb]
        ring
    · rw [ih2, h2, List.map_cons, List.filter_cons]
      by_cases hb : isPlayed p.2 = true
      · rw [if_pos hb, if_pos hb, List.length_cons]
        push_cast
        ring
      · rw [if_neg hb, if_neg hb]
        ring

/-- `buildStats` keys the result object by team. -/
theorem lookup_map_pair (f : String → TeamStats) {team : String} :
    ∀ {l : List String}, team ∈ l →
      (l.map fun t => (t, f t)).lookup team = some (f team) := by
  intro l hmem
  induction l with
  | nil => cases hmem
  | cons y ys ih =>
    by_cases hy : y = team
    · subst hy
      simp [List.lookup]
    · have hmem' : team ∈ ys := by
        cases hmem with
        | head => exact absurd rfl hy
        | tail _ h => exact h
      have hty : (team == y) = false := beq_eq_false_iff_ne.mpr (Ne.symm hy)
      simpa [List.lookup, hty] using ih hmem'

/-- Clean sheets are a subset of played matches. -/
theorem clean_le_played (L : List MatchdayData) :
    (L.filter fun md => isPlayed md && concededZero md).length ≤
      (L.filter isPlayed).length := by
  rw [← List.countP_eq_length_filter, ← List.countP_eq_length_filter]
  exact List.countP_mono_left fun x _ h => ((Bool.and_eq_true _ _).mp h).1

/-- The clean-sheet component of the per-team loop body of `buildStats`. -/
theorem buildStatsFor_cleanSheets (data : StatsData) (team : String) :
    (0 < ((teamMatchdays data team).filter isPlayed).length →
      (buildStatsFor data team).cleanSheetRatio =
        ((((teamMatchdays data team).filter
            fun md => isPlayed md && concededZero md).length : Rat)) /
          (((teamMatchdays data team).filter isPlayed).length : Rat)) ∧
    (((teamMatchdays data team).filter isPlayed).length = 0 →
      (buildStatsFor data team).cleanSheetRatio = 0) := by
  cases hform : data.form team with
  | none =>
    have hmd : teamMatchdays data team = [] := by rw [teamMatchdays, hform]
    have hbs : buildStatsFor data team = ⟨0, 0, 0, 0, 0⟩ := by
      rw [buildStatsFor, countOccurances, countOccurances, hform]
      norm_num
    constructor
    · intro hpos
      rw [hmd] at hpos
      simp at hpos
    · intro _
      rw [hbs]
  | some seasons =>
    obtain ⟨ha1, ha2⟩ :=
      foldl_countStep (seasons data._id) (⟨0, 0, 0, 0, 0⟩ : TeamStats)
    obtain ⟨hb1, hb2⟩ :=
      foldl_countStep (seasons (data._id - 1))
        ((seasons data._id).foldl countStep (⟨0, 0, 0, 0, 0⟩ : TeamStats))
    have hmd : teamMatchdays data team =
        ((seasons data._id).map (·.2)) ++ ((seasons (data._id - 1)).map (·.2)) := by
      rw [teamMatchdays, hform]
    set s := (seasons (data._id - 1)).foldl countStep
      ((seasons data._id).foldl countStep (⟨0, 0, 0, 0, 0⟩ : TeamStats)) with hsdef
    set c1 := (((seasons data._id).map (·.2)).filter
      fun md => isPlayed md && concededZero md).length with hc1
    set c2 := (((seasons (data._id - 1)).map (·.2)).filter
      fun md => isPlayed md && concededZero md).length with hc2
    set p1 := (((seasons data._id).map (·.2)).filter isPlayed).length with hp1
    set p2 := (((seasons (data._id - 1)).map (·.2)).filter isPlayed).length with hp2
    have hsp : s.played = (p1 : Rat) + p2 := by
      rw [hb2, ha2]
      norm_num
    have hsc : s.cleanSheetRatio = (c1 : Rat) + c2 := by
      rw [hb1, ha1]
      norm_num
    have hbs : buildStatsFor data team =
        if s.played > 0 then
          { cleanSheetRatio := s.cleanSheetRatio / s.played,
            noGoalRatio := s.noGoalRatio / s.played,
            xC := s.xC / s.played, xG := s.xG / s.played, played := s.played }
        else s := by
      simp only [buildStatsFor, countOccurances, hform, hsdef]
    rw [hbs, hmd, List.filter_append, List.filter_append, List.length_append,
      List.length_append, ← hc1, ← hc2, ← hp1, ← hp2]
    constructor
    · intro hpos
      rw [if_pos (show s.played > 0 by rw [hsp]; exact_mod_cast hpos)]
      show s.cleanSheetRatio / s.played = _
      rw [hsc, hsp]
      push_cast
      ring
    · intro hzero
      have hp1z : p1 = 0 := by omega
      have hp2z : p2 = 0 := by omega
      have hc1z : c1 = 0 :=
        Nat.le_zero.mp (hp1z ▸ clean_le_played ((seasons data._id).map (·.2)))
      have hc2z : c2 = 0 :=
        Nat.le_zero.mp (hp2z ▸ clean_le_played ((seasons (data._id - 1)).map (·.2)))
      rw [if_neg (by rw [hsp, hp1z, hp2z]; norm_num)]
      rw [hsc, hc1z, hc2z]
      norm_num

/-- C5: for every team of `data.standings`, the clean-sheet ratio of
`buildStats` equals the number of played matches (non-null score, over
seasons `_id` and `_id - 1`) in which the team conceded zero goals,
divided by the team's total number of played matches over those two
seasons whenever that total is positive, and `0` when the team played no
matches. -/
theorem buildStats_cleanSheets (data : StatsData) (team : String)
    (hmem : team ∈ data.standings) :
    ∃ ts, (buildStats data).lookup team = some ts ∧
      (0 < ((teamMatchdays data team).filter isPlayed).length →
        ts.cleanSheetRatio =
          ((((teamMatchdays data team).filter
              fun md => isPlayed md && concededZero md).length : Rat)) /
            (((teamMatchdays data team).filter isPlayed).length : Rat)) ∧
      (((teamMatchdays data team).filter isPlayed).length = 0 →
        ts.cleanSheetRatio = 0) :=
  ⟨buildStatsFor data team, lookup_map_pair _ hmem,
    (buildStatsFor_cleanSheets data team).1, (buildStatsFor_cleanSheets data team).2⟩

/-- A one-team, one-matchday data blob: a home win 1–0 (a clean sheet). -/
def demoStats : StatsData :=
  { _id := 2023, standings := ["T"],
    form := fun t =>
      if t = "T" then
        some fun s => if s = 2023 then [("1", ⟨some ⟨1, 0⟩, true⟩)] else []
      else none }

/-- Witness for `buildStats_cleanSheets`: one played match, one clean
sheet, ratio 1. -/
theorem buildStats_cleanSheets_witness :
    ∃ ts, (buildStats demoStats).lookup "T" = some ts ∧ ts.cleanSheetRatio = 1 := by
  obtain ⟨ts, hl, h1, _⟩ := buildStats_cleanSheets demoStats "T" (by simp [demoStats])
  have hmd : teamMatchdays demoStats "T" = [⟨some ⟨1, 0⟩, true⟩] := by
    norm_num [teamMatchdays, demoStats]
  rw [hmd] at h1
  refine ⟨ts, hl, ?_⟩
  have hval := h1 (by simp [isPlayed])
  rw [hval]
  norm_num [isPlayed, concededZero]

/-! ### Dashboard page-load theorems (C6) -/

/-- C6: a Dashboard page load performs exactly one fetch of the teams
endpoint whatever the outcome (no batching, retry, timeout or
cancellation); when the fetch fails, `initDashboard` leaves `data`
untouched, performs no further action, and the page keeps rendering the
loading spinner. -/
theorem initDashboard_spec (playedDatesOf : StatsData → String → List Int)
    (st : DashboardState) :
    (∀ fetchResult,
      ((initDashboard playedDatesOf fetchResult st).2.count DashEffect.fetchTeams) = 1) ∧
    (initDashboard playedDatesOf none st).1.data = st.data ∧
    (initDashboard playedDatesOf none st).2 = [DashEffect.fetchTeams] ∧
    (st.data = none →
      dashboardShowsSpinner (initDashboard playedDatesOf none st).1 = true) := by
  have hcount : ∀ fetchResult,
      ((initDashboard playedDatesOf fetchResult st).2.count DashEffect.fetchTeams) = 1 := by
    intro fetchResult
    cases fetchResult with
    | none =>
      rw [initDashboard]
      split_ifs <;> simp [List.count_cons]
    | some json =>
      rw [initDashboard]
      split_ifs <;> simp [List.count_cons, List.count_append, List.count_nil]
  have hfail : (initDashboard playedDatesOf none st).1.data = st.data ∧
      (initDashboard playedDatesOf none st).2 = [DashEffect.fetchTeams] := by
    rw [initDashboard]
    split_ifs with hov
    · exact ⟨rfl, rfl⟩
    · cases hh : st.hyphenatedTeam with
      | none => exact ⟨rfl, rfl⟩
      | some h => exact ⟨rfl, rfl⟩
  refine ⟨hcount, hfail.1, hfail.2, ?_⟩
  intro hdata
  rw [dashboardShowsSpinner, hfail.1, hdata]
  rfl

/-- Witness for `initDashboard_spec`: a freshly mounted Dashboard whose
fetch fails stays on the spinner. -/
theorem initDashboard_spec_witness :
    ((initDashboard (fun _ _ => []) none
        ⟨none, "", "Dashboard", none, [], none, []⟩).2.count DashEffect.fetchTeams = 1) ∧
    dashboardShowsSpinner (initDashboard (fun _ _ => []) none
        ⟨none, "", "Dashboard", none, [], none, []⟩).1 = true := by
  have h := initDashboard_spec (fun _ _ => []) ⟨none, "", "Dashboard", none, [], none, []⟩
  exact ⟨h.1 none, h.2.2.2 rfl⟩

/-! ### Predictions page theorems (C7)

The claim that the Predictions page's processing leaves the fetched JSON
unmodified is false: `insertExtras` writes a `colour` onto every completed
prediction entry of the fetched array (and `sortByDate` reorders the array
in place). -/

/-- A fetched predictions array with a single completed, correctly
predicted match. -/
def demoPredJson : PredJson :=
  ⟨[⟨"2023-08-12", [⟨"ARS", "MCI", ⟨1, 0⟩, some ⟨1, 0⟩, "14:00", none⟩]⟩], none⟩

/-- Counterexample to C7: `insertExtras` changes the fetched predictions
(the completed entry acquires `colour = "green"`). -/
theorem insertExtras_mutates_fetched :
    (insertExtras demoPredJson).predictions ≠ demoPredJson.predictions := by
  intro h
  have h1 : (insertExtras demoPredJson).predictions =
      [⟨"2023-08-12", [⟨"ARS", "MCI", ⟨1, 0⟩, some ⟨1, 0⟩, "14:00", some "green"⟩]⟩] := by
    have hident : identicalScore (⟨1, 0⟩ : Score) (⟨1, 0⟩ : Score) = true := by
      rw [identicalScore]
      norm_num [jsRound]
    simp [insertExtras, demoPredJson, insertExtrasEntry, hident]
  rw [h1, demoPredJson] at h
  simp at h

/-- Strip the `colour` annotation from a prediction entry. -/
def eraseColour (p : PredEntry) : PredEntry := { p with colour := none }

theorem eraseColour_insertExtrasEntry (p : PredEntry) :
    eraseColour (insertExtrasEntry p).1 = eraseColour p := by
  rw [insertExtrasEntry]
  cases hpa : p.actual with
  | none => rfl
  | some a =>
    dsimp only
    split_ifs <;> simp [eraseColour, hpa]

/-- C7 (amended): the Predictions page's processing mutates the fetched
JSON, but only in the stated ways — `sortByDate` permutes the fetched
days (each day keeping a permutation of its prediction entries, every
field unchanged), and `insertExtras` changes nothing except the `colour`
of prediction entries (writing it only on completed ones) and the
`accuracy` summary of its wrapper argument. -/
theorem predictions_processing_frame (dateVal : String → Int)
    (days : List PredDay) (json : PredJson) :
    ((sortByDate dateVal days).map fun d =>
        (d._id, (d.predictions : Multiset PredEntry))).Perm
      (days.map fun d => (d._id, (d.predictions : Multiset PredEntry))) ∧
    ((insertExtras json).predictions.map fun d =>
        { d with predictions := d.predictions.map eraseColour }) =
      (json.predictions.map fun d =>
        { d with predictions := d.predictions.map eraseColour }) ∧
    (∀ d ∈ json.predictions, ∀ p ∈ d.predictions, p.actual = none →
      (insertExtrasEntry p).1 = p) := by
  refine ⟨?_, ?_, ?_⟩
  · rw [sortByDate, List.map_map]
    have hmap : ∀ d : PredDay,
        ((fun d : PredDay => (d._id, (d.predictions : Multiset PredEntry))) ∘
          fun day : PredDay =>
            { day with predictions :=
                day.predictions.insertionSort fun a b =>
                  dateVal a.datetime ≤ dateVal b.datetime }) d =
        (d._id, (d.predictions : Multiset PredEntry)) := by
      intro d
      show (d._id, ((d.predictions.insertionSort _ : List PredEntry) : Multiset PredEntry)) = _
      rw [Prod.mk.injEq]
      exact ⟨rfl, Quot.sound (List.perm_insertionSort _ _)⟩
    rw [List.map_congr_left fun d _ => hmap d]
    exact (List.perm_insertionSort _ _).map _
  · rw [insertExtras]
    simp only [List.map_map]
    refine List.map_congr_left fun d _ => ?_
    simp only [Function.comp]
    rw [PredDay.mk.injEq]
    refine ⟨rfl, ?_⟩
    simp only [List.map_map]
    exact List.map_congr_left fun p _ => eraseColour_insertExtrasEntry p
  · intro d _ p _ hact
    rw [insertExtrasEntry, hact]

/-! ### Router theorems (C1) -/

/-- The claim's per-segment score: 4 points per segment, plus 3 for a
static segment, 2 for a dynamic (`:param`) segment, 1 for the root (empty)
segment, and minus 5 for a splat segment. -/
def claimSegmentScore (segment : String) : Int :=
  if isRootSegment segment then 4 + 1
  else if isDynamic segment then 4 + 2
  else if isSplat segment then 4 - 5
  else 4 + 3

theorem rankSegmentStep_eq (a : Int) (s : String) :
    rankSegmentStep a s = a + claimSegmentScore s := by
  rw [rankSegmentStep, claimSegmentScore]
  simp only [SEGMENT_POINTS, ROOT_POINTS, DYNAMIC_POINTS, SPLAT_PENALTY, STATIC_POINTS]
  split_ifs <;> ring

theorem foldl_rankSegmentStep (l : List String) :
    ∀ a : Int, l.foldl rankSegmentStep a = a + (l.map claimSegmentScore).sum := by
  induction l with
  | nil => intro a; simp
  | cons s t ih =>
    intro a
    rw [List.foldl_cons, ih, rankSegmentStep_eq, List.map_cons, List.sum_cons]
    ring

/-- The score of a non-default route is the sum of the claim's per-segment
scores. -/
theorem rankRoute_score (r : Route) (i : Nat) (h : r.isDefault = false) :
    (rankRoute r i).score = ((segmentize r.path).map claimSegmentScore).sum := by
  show (if r.isDefault then 0 else (segmentize r.path).foldl rankSegmentStep 0) = _
  rw [h, if_neg (by simp), foldl_rankSegmentStep]
  ring

/-- The sort comparator, read as a proposition. -/
theorem rankedR_iff (a b : Ranked) :
    rankedR a b ↔ (b.score < a.score ∨ (a.score = b.score ∧ a.index ≤ b.index)) := by
  simp [rankedR, rankedLE]

instance : IsTotal Ranked rankedR :=
  ⟨fun a b => by
    rw [rankedR_iff, rankedR_iff]
    omega⟩

instance : IsTrans Ranked rankedR :=
  ⟨fun a b c hab hbc => by
    rw [rankedR_iff] at *
    omega⟩

/-- `rankRoutes` is a permutation of the scored indexed routes. -/
theorem rankRoutes_perm (routes : List Route) :
    (rankRoutes routes).Perm (routes.enum.map fun p => rankRoute p.2 p.1) :=
  List.perm_insertionSort _ _

/-- `rankRoutes` is sorted by descending score, ties by ascending index. -/
theorem rankRoutes_sorted (routes : List Route) :
    List.Sorted rankedR (rankRoutes routes) :=
  List.sorted_insertionSort _ _

/-- A successful `find?` splits the list into a prefix of failures, the
found element, and a tail. -/
theorem find?_split {α : Type} (p : α → Bool) :
    ∀ {l : List α} {e : α}, l.find? p = some e →
      ∃ l₁ l₂, l = l₁ ++ e :: l₂ ∧ (∀ x ∈ l₁, p x = false) ∧ p e = true := by
  intro l
  induction l with
  | nil => intro e h; cases h
  | cons a t ih =>
    intro e h
    cases hpa : p a with
    | true =>
      rw [List.find?_cons_of_pos _ hpa] at h
      cases h
      refine ⟨[], t, rfl, ?_, hpa⟩
      intro x hx
      cases hx
    | false =>
      rw [List.find?_cons_of_neg _ (by simp [hpa])] at h
      obtain ⟨l₁, l₂, rfl, hl₁, hpe⟩ := ih h
      refine ⟨a :: l₁, l₂, rfl, ?_, hpe⟩
      intro x hx
      cases hx with
      | head => exact hpa
      | tail _ hxt => exact hl₁ x hxt

/-- The running `default_` update of `pick`'s outer loop. -/
def defaultScan (uri : String) (l : List Ranked) (dflt : Option RMatch) : Option RMatch :=
  l.foldl (fun acc e => if e.route.isDefault then some ⟨e.route, [], uri⟩ else acc) dflt

theorem defaultScan_of_none (uri : String) :
    ∀ (l : List Ranked) (dflt : Option RMatch),
      (∀ e ∈ l, e.route.isDefault = false) → defaultScan uri l dflt = dflt := by
  intro l
  induction l with
  | nil => intro dflt _; rfl
  | cons a t ih =>
    intro dflt h
    rw [defaultScan, List.foldl_cons, if_neg (by simp [h a (by simp)])]
    exact ih dflt fun e he => h e (List.mem_cons_of_mem _ he)

theorem defaultScan_of_some (uri : String) :
    ∀ (l : List Ranked) (dflt : Option RMatch),
      (∃ e ∈ l, e.route.isDefault = true) →
      ∃ e ∈ l, e.route.isDefault = true ∧
        defaultScan uri l dflt = some ⟨e.route, [], uri⟩ := by
  intro l
  induction l with
  | nil => intro dflt h; obtain ⟨e, he, _⟩ := h; cases he
  | cons a t ih =>
    intro dflt hex
    by_cases ht : ∃ e ∈ t, e.route.isDefault = true
    · obtain ⟨e, he, hd, heq⟩ :=
        ih (if a.route.isDefault then some ⟨a.route, [], uri⟩ else dflt) ht
      refine ⟨e, List.mem_cons_of_mem _ he, hd, ?_⟩
      rw [defaultScan, List.foldl_cons]
      rw [defaultScan] at heq
      exact heq
    · push_neg at ht
      have htf : ∀ e ∈ t, e.route.isDefault = false := by
        intro e he
        cases hde : e.route.isDefault with
        | false => rfl
        | true => exact absurd hde (ht e he)
      have ha : a.route.isDefault = true := by
        obtain ⟨e, he, hd⟩ := hex
        cases he with
        | head => exact hd
        | tail _ het => exact absurd hd (ht e het)
      refine ⟨a, by simp, ha, ?_⟩
      rw [defaultScan, List.foldl_cons, if_pos ha]
      exact defaultScan_of_none uri t _ htf

/-- The outer loop of `pick`: the first non-default route (in ranked
order) that matches wins; otherwise the last default route seen wins. -/
theorem pickLoop_eq (decode : String → String) (uri : String)
    (uriSegments : List String) (isRootUri : Bool) :
    ∀ (l : List Ranked) (dflt : Option RMatch),
      pickLoop decode uri uriSegments isRootUri l dflt =
        match l.find? (fun e => !e.route.isDefault &&
            (matchRoute decode uriSegments isRootUri e.route).isSome) with
        | some e => matchRoute decode uriSegments isRootUri e.route
        | none => defaultScan uri l dflt := by
  intro l
  induction l with
  | nil => intro dflt; rfl
  | cons e rest ih =>
    intro dflt
    by_cases hd : e.route.isDefault = true
    · rw [pickLoop, if_pos hd, ih, List.find?_cons_of_neg _ (by simp [hd])]
      cases hf : rest.find? (fun e => !e.route.isDefault &&
          (matchRoute decode uriSegments isRootUri e.route).isSome) with
      | some x => rfl
      | none =>
        show defaultScan uri rest _ = defaultScan uri (e :: rest) dflt
        rw [defaultScan, defaultScan, List.foldl_cons, if_pos hd]
    · have hd' : e.route.isDefault = false := by simpa using hd
      rw [pickLoop, if_neg hd]
      cases hm : matchRoute decode uriSegments isRootUri e.route with
      | some m =>
        rw [List.find?_cons_of_pos _ (by simp [hd', hm])]
        dsimp only
        exact hm.symm
      | none =>
        rw [ih, List.find?_cons_of_neg _ (by simp [hm])]
        cases hf : rest.find? (fun e => !e.route.isDefault &&
            (matchRoute decode uriSegments isRootUri e.route).isSome) with
        | some x => rfl
        | none =>
          show defaultScan uri rest dflt = defaultScan uri (e :: rest) dflt
          rw [defaultScan, defaultScan, List.foldl_cons, if_neg (by simp [hd'])]

theorem rankRoute_route (r : Route) (i : Nat) : (rankRoute r i).route = r := rfl

theorem rankRoute_index (r : Route) (i : Nat) : (rankRoute r i).index = i := rfl

theorem mem_rankRoutes_of_enum {routes : List Route} {i : Nat} {r : Route}
    (h : (i, r) ∈ routes.enum) : rankRoute r i ∈ rankRoutes routes := by
  rw [(rankRoutes_perm routes).mem_iff]
  exact List.mem_map_of_mem _ h

theorem exists_enum_of_mem_rankRoutes {routes : List Route} {e : Ranked}
    (h : e ∈ rankRoutes routes) : ∃ p ∈ routes.enum, rankRoute p.2 p.1 = e := by
  rw [(rankRoutes_perm routes).mem_iff] at h
  exact List.mem_map.mp h

theorem exists_enum_idx_of_mem {l : List Route} {r : Route} (h : r ∈ l) :
    ∃ i, (i, r) ∈ l.enum := by
  obtain ⟨n, hn⟩ := List.mem_iff_getElem?.mp h
  exact ⟨n, List.mk_mem_enum_iff_getElem?.mpr hn⟩

theorem mem_of_mem_enum {l : List Route} {i : Nat} {r : Route}
    (h : (i, r) ∈ l.enum) : r ∈ l :=
  List.mem_iff_getElem?.mpr ⟨i, List.mk_mem_enum_iff_getElem?.mp h⟩

/-- C1: `pick` scores each non-default route by summing, over its
segments, 4 points per segment plus 3 for static, 2 for dynamic, 1 for
root and minus 5 for splat; when some non-default route matches, `pick`
returns the match of a matching non-default route that every other
matching non-default route either scores below or ties with at an equal
or later index; when none matches, it falls back to a default route with
empty params, and to `null` when there is no default route. -/
theorem pick_spec (decode : String → String) (routes : List Route) (uri : String) :
    (∀ (r : Route) (i : Nat), r.isDefault = false →
      (rankRoute r i).score = ((segmentize r.path).map claimSegmentScore).sum) ∧
    ((∃ ir ∈ routes.enum, ir.2.isDefault = false ∧
        (matchRoute decode (uriSegmentsOf uri) (isRootUriOf uri) ir.2).isSome) →
      ∃ (i₀ : Nat) (r₀ : Route) (m : RMatch), (i₀, r₀) ∈ routes.enum ∧
        r₀.isDefault = false ∧
        matchRoute decode (uriSegmentsOf uri) (isRootUriOf uri) r₀ = some m ∧
        pick decode routes uri = some m ∧
        ∀ jr ∈ routes.enum, jr.2.isDefault = false →
          (matchRoute decode (uriSegmentsOf uri) (isRootUriOf uri) jr.2).isSome →
          ((rankRoute jr.2 jr.1).score < (rankRoute r₀ i₀).score ∨
            ((rankRoute jr.2 jr.1).score = (rankRoute r₀ i₀).score ∧ i₀ ≤ jr.1))) ∧
    ((∀ ir ∈ routes.enum, ir.2.isDefault = false →
        matchRoute decode (uriSegmentsOf uri) (isRootUriOf uri) ir.2 = none) →
      ((∃ r ∈ routes, r.isDefault = true) →
        ∃ r ∈ routes, r.isDefault = true ∧
          pick decode routes uri = some ⟨r, [], uri⟩) ∧
      ((∀ r ∈ routes, r.isDefault = false) → pick decode routes uri = none)) := by
  have hpick := pickLoop_eq decode uri (uriSegmentsOf uri) (isRootUriOf uri)
    (rankRoutes routes) none
  refine ⟨fun r i h => rankRoute_score r i h, ?_, ?_⟩
  · rintro ⟨⟨i, r⟩, hmem, hnd, hsome⟩
    have hwitness : ∃ x ∈ rankRoutes routes,
        (!x.route.isDefault &&
          (matchRoute decode (uriSegmentsOf uri) (isRootUriOf uri) x.route).isSome) = true :=
      ⟨rankRoute r i, mem_rankRoutes_of_enum hmem, by
        rw [rankRoute_route, hnd]
        simpa using hsome⟩
    obtain ⟨e, hfe⟩ : ∃ e, (rankRoutes routes).find? (fun e => !e.route.isDefault &&
        (matchRoute decode (uriSegmentsOf uri) (isRootUriOf uri) e.route).isSome) = some e := by
      cases hf : (rankRoutes routes).find? (fun e => !e.route.isDefault &&
          (matchRoute decode (uriSegmentsOf uri) (isRootUriOf uri) e.route).isSome) with
      | some x => exact ⟨x, rfl⟩
      | none =>
        rw [List.find?_eq_none] at hf
        obtain ⟨x, hx, hpx⟩ := hwitness
        exact absurd hpx (by simpa using hf x hx)
    have hpe := List.find?_some hfe
    rw [Bool.and_eq_true, Bool.not_eq_true'] at hpe
    obtain ⟨hpe1, hpe2⟩ := hpe
    obtain ⟨m, hm⟩ := Option.isSome_iff_exists.mp hpe2
    obtain ⟨⟨i₀, r₀⟩, hmem₀, heq₀⟩ :=
      exists_enum_of_mem_rankRoutes (List.mem_of_find?_eq_some hfe)
    have hroute₀ : e.route = r₀ := by rw [← heq₀, rankRoute_route]
    have hindex₀ : e.index = i₀ := by rw [← heq₀, rankRoute_index]
    refine ⟨i₀, r₀, m, hmem₀, by rw [← hroute₀]; exact hpe1, by rw [← hroute₀]; exact hm,
      ?_, ?_⟩
    · show pickLoop decode uri (uriSegmentsOf uri) (isRootUriOf uri)
        (rankRoutes routes) none = some m
      rw [hpick, hfe]
      exact hm
    · rintro ⟨j, r'⟩ hmem' hnd' hsome'
      have hnd'' : r'.isDefault = false := hnd'
      have hsome'' :
          (matchRoute decode (uriSegmentsOf uri) (isRootUriOf uri) r').isSome = true :=
        hsome'
      have hx : rankRoute r' j ∈ rankRoutes routes := mem_rankRoutes_of_enum hmem'
      obtain ⟨l₁, l₂, hlsplit, hl₁, _⟩ := find?_split _ hfe
      rw [hlsplit] at hx
      rcases List.mem_append.mp hx with hx1 | hx2
      · have hcontr := hl₁ _ hx1
        rw [rankRoute_route] at hcontr
        simp only [hnd'', Bool.not_false, Bool.true_and] at hcontr
        rw [hcontr] at hsome''
        simp at hsome''
      · rcases List.mem_cons.mp hx2 with hxe | hxl₂
        · right
          have hre : rankRoute r' j = rankRoute r₀ i₀ := by rw [hxe, ← heq₀]
          refine ⟨congrArg Ranked.score hre, ?_⟩
          have hidx := congrArg Ranked.index hre
          rw [rankRoute_index, rankRoute_index] at hidx
          omega
        · have hsorted := rankRoutes_sorted routes
          rw [hlsplit, List.Sorted, List.pairwise_append] at hsorted
          have hrel := (List.pairwise_cons.mp hsorted.2.1).1 _ hxl₂
          rw [rankedR_iff] at hrel
          have hsc : e.score = (rankRoute r₀ i₀).score := by rw [← heq₀]
          have hidx : e.index = i₀ := by rw [← heq₀, rankRoute_index]
          rw [hsc, hidx, rankRoute_index] at hrel
          rcases hrel with hlt | ⟨h1, h2⟩
          · left
            exact hlt
          · right
            exact ⟨h1.symm, h2⟩
  · intro hnone
    have hfn : (rankRoutes routes).find? (fun e => !e.route.isDefault &&
        (matchRoute decode (uriSegmentsOf uri) (isRootUriOf uri) e.route).isSome) = none := by
      rw [List.find?_eq_none]
      intro x hx
      obtain ⟨⟨i, r⟩, hmem, heq⟩ := exists_enum_of_mem_rankRoutes hx
      cases hdr : r.isDefault with
      | true =>
        rw [← heq, rankRoute_route]
        simp [hdr]
      | false =>
        have := hnone (i, r) hmem hdr
        rw [← heq, rankRoute_route]
        simp [this]
    have hres : pick decode routes uri = defaultScan uri (rankRoutes routes) none := by
      show pickLoop decode uri (uriSegmentsOf uri) (isRootUriOf uri)
        (rankRoutes routes) none = _
      rw [hpick, hfn]
    constructor
    · rintro ⟨r, hr, hdr⟩
      obtain ⟨i, hienum⟩ := exists_enum_idx_of_mem hr
      have hentry : rankRoute r i ∈ rankRoutes routes := mem_rankRoutes_of_enum hienum
      obtain ⟨e, he, hde, heq⟩ := defaultScan_of_some uri (rankRoutes routes) none
        ⟨rankRoute r i, hentry, by rw [rankRoute_route]; exact hdr⟩
      obtain ⟨⟨i', r'⟩, hmem', heq'⟩ := exists_enum_of_mem_rankRoutes he
      refine ⟨r', mem_of_mem_enum hmem', ?_, ?_⟩
      · rw [← rankRoute_route r' i', heq']
        exact hde
      · rw [hres, heq, ← heq', rankRoute_route]
    · intro hall
      rw [hres, defaultScan_of_none]
      intro e he
      obtain ⟨⟨i, r⟩, hmem, heq⟩ := exists_enum_of_mem_rankRoutes he
      rw [← heq, rankRoute_route]
      exact hall r (mem_of_mem_enum hmem)

/-- Witness for `predictions_processing_frame` on the one-match fetch. -/
theorem predictions_processing_frame_witness :
    ((sortByDate (fun _ => 0) demoPredJson.predictions).map fun d =>
        (d._id, (d.predictions : Multiset PredEntry))).Perm
      (demoPredJson.predictions.map fun d =>
        (d._id, (d.predictions : Multiset PredEntry))) ∧
    ((insertExtras demoPredJson).predictions.map fun d =>
        { d with predictions := d.predictions.map eraseColour }) =
      (demoPredJson.predictions.map fun d =>
        { d with predictions := d.predictions.map eraseColour }) ∧
    (∀ d ∈ demoPredJson.predictions, ∀ p ∈ d.predictions, p.actual = none →
      (insertExtrasEntry p).1 = p) :=
  predictions_processing_frame (fun _ => 0) demoPredJson.predictions demoPredJson

/-- Witness for `pick_spec`: on routes `/users/:id`, `/users/admin` and a
default route, the URI `/users/admin` is matched by a best non-default
route. -/
theorem pick_spec_witness :
    ∃ (i₀ : Nat) (r₀ : Route) (m : RMatch),
      (i₀, r₀) ∈ ([⟨"/users/:id", false⟩, ⟨"/users/admin", false⟩,
        ⟨"", true⟩] : List Route).enum ∧
      r₀.isDefault = false ∧
      matchRoute (fun s => s) (uriSegmentsOf "/users/admin")
        (isRootUriOf "/users/admin") r₀ = some m ∧
      pick (fun s => s) [⟨"/users/:id", false⟩, ⟨"/users/admin", false⟩, ⟨"", true⟩]
        "/users/admin" = some m ∧
      ∀ jr ∈ ([⟨"/users/:id", false⟩, ⟨"/users/admin", false⟩,
          ⟨"", true⟩] : List Route).enum, jr.2.isDefault = false →
        (matchRoute (fun s => s) (uriSegmentsOf "/users/admin")
          (isRootUriOf "/users/admin") jr.2).isSome →
        ((rankRoute jr.2 jr.1).score < (rankRoute r₀ i₀).score ∨
          ((rankRoute jr.2 jr.1).score = (rankRoute r₀ i₀).score ∧ i₀ ≤ jr.1)) :=
  (pick_spec (fun s => s)
    [⟨"/users/:id", false⟩, ⟨"/users/admin", false⟩, ⟨"", true⟩] "/users/admin").2.1
    ⟨(1, ⟨"/users/admin", false⟩), by decide, by decide, by decide⟩

end App
